import Mathlib

/-!
Verification of the PDFManager document-manipulation core
(`src/pdf_merger_app.py`): range parsing, merge/split worker runs,
output naming, rotation normalization and preview scaling.

Python strings are embedded as `List Char`; Python `int` values as `Int`;
page counts as `Nat`.  Python float expressions such as
`int(done/total*100)` are embedded as exact rational/natural arithmetic
(`done * 100 / total`), which agrees with the source on all inputs used in
the theorems below.
-/

namespace PDFManager

/-- Characters stripped by Python `str.strip()` / `int()` (ASCII whitespace). -/
def pySpace (c : Char) : Bool :=
  c == ' ' || c == '\t' || c == '\n' || c == '\r' || c == Char.ofNat 11 || c == Char.ofNat 12

/-- Python `str.strip()`: drop whitespace from both ends. -/
def pyStrip (s : List Char) : List Char :=
  ((s.dropWhile pySpace).reverse.dropWhile pySpace).reverse

/-- Tail of a Python decimal-integer literal: digits with single interior
underscores (`digit (digit | "_" digit)*` after the first digit). -/
def pyDigTail : List Char → Bool
  | [] => true
  | '_' :: rest =>
    match rest with
    | [] => false
    | c :: rest2 => c.isDigit && pyDigTail rest2
  | c :: rest => c.isDigit && pyDigTail rest

/-- A nonempty Python decimal-digit body (underscore separators allowed). -/
def pyDigBody : List Char → Bool
  | [] => false
  | c :: rest => c.isDigit && pyDigTail rest

/-- Value of a digit body, ignoring underscore separators. -/
def digitsVal (s : List Char) : Nat :=
  s.foldl (fun acc c => if c == '_' then acc else acc * 10 + (c.toNat - '0'.toNat)) 0

/-- Python `int(s)` on a string: strip whitespace, optional sign, decimal
digits; `none` models a raised `ValueError`. -/
def pyInt (s : List Char) : Option Int :=
  let t := pyStrip s
  match t with
  | '+' :: rest => if pyDigBody rest then some (Int.ofNat (digitsVal rest)) else none
  | '-' :: rest => if pyDigBody rest then some (-(Int.ofNat (digitsVal rest))) else none
  | _ => if pyDigBody t then some (Int.ofNat (digitsVal t)) else none

/-- Python `s.split(",")`. -/
def splitComma : List Char → List (List Char)
  | [] => [[]]
  | c :: rest =>
    if c = ',' then [] :: splitComma rest
    else
      match splitComma rest with
      | [] => [[c]]
      | g :: gs => (c :: g) :: gs

/-- Python `part.split("-", 1)` when `"-" in part`; `none` when the token
contains no dash. -/
def splitDash1 : List Char → Option (List Char × List Char)
  | [] => none
  | c :: rest =>
    if c = '-' then some ([], rest)
    else (splitDash1 rest).map (fun p => (c :: p.1, p.2))

/-- `max(1, min(total_pages, x))` from `parse_ranges`. -/
def clampPage (total x : Int) : Int := max 1 (min total x)

/-- `if start > end: start, end = end, start` followed by the append. -/
def swapPair (s e : Int) : Option (Int × Int) :=
  if s > e then some (e, s) else some (s, e)

/-- The dashed-token branch of `parse_ranges`: start must parse, a
non-numeric end falls back to the (clamped) start, inverted pairs swap. -/
def tokenOfDash (total : Int) (a b : List Char) : Option (Int × Int) :=
  match pyInt a with
  | none => none
  | some ia =>
    match pyInt b with
    | none => swapPair (clampPage total ia) (clampPage total ia)
    | some ib => swapPair (clampPage total ia) (clampPage total ib)

/-- One loop iteration of `parse_ranges` on a raw comma-separated token:
`none` when the token is dropped (blank or malformed). -/
def parseToken (total : Int) (raw : List Char) : Option (Int × Int) :=
  let part := pyStrip raw
  if part.isEmpty then none
  else
    match splitDash1 part with
    | some (a, b) => tokenOfDash total a b
    | none =>
      match pyInt part with
      | none => none
      | some ip => some (clampPage total ip, clampPage total ip)

/-- The accumulation loop of `parse_ranges` over the comma-split tokens:
dropped tokens contribute nothing, surviving tokens append in order. -/
def parseParts (total : Int) : List (List Char) → List (Int × Int)
  | [] => []
  | p :: ps =>
    match parseToken total p with
    | none => parseParts total ps
    | some r => r :: parseParts total ps

/-- `parse_ranges(text, total_pages)` from `pdf_merger_app.py`. -/
def parse_ranges (text : List Char) (total : Int) : List (Int × Int) :=
  let t := pyStrip text
  if t.isEmpty then [] else parseParts total (splitComma t)

/-!  ## Page rotation (edit tab)  -/

/-- Modelled from the spec: `rotate_page_inplace` delegates to the external
pypdf collaborator (`page.rotate(deg)` with a clockwise/counter-clockwise
fallback); the document reader/writer collaborator stores a per-page
rotation normalized mod 360 — `rotation = (rotation + delta) mod 360`. -/
def rotatePage (r delta : Int) : Int := (r + delta) % 360

/-!  ## Merge worker (`MergeWorker.run`)  -/

/-- Outcome of opening one merge `SourceItem`: opens with `pages` stored
pages (bookmark insertion may fail), is encrypted with a failing
empty-password decrypt, or raises on open. -/
inductive MItem where
  | ok (pages : Nat) (bmFail : Bool)
  | encBad
  | openErr
deriving DecidableEq

/-- Events a merge run emits through its `message`/`progress` signals. -/
inductive MEvent where
  | loading
  | skipEnc
  | skipErr
  | bmFailMsg
  | prog (v : Nat)
deriving DecidableEq

/-- `int(done/total*100)` in exact arithmetic. -/
def pyPct (done total : Nat) : Nat := done * 100 / total

/-- One iteration of the merge loop: returns the updated `done` counter,
the pages this item contributed, and the events emitted, in order.
The encrypted-skip branch increments `done` and emits progress in its
`except` handler and then again in the `finally` block that Python also
runs on `continue`. -/
def mergeStep (addBm : Bool) (total done : Nat) : MItem → Nat × Nat × List MEvent
  | .ok n bmFail =>
    (done + 1, n,
      [MEvent.loading]
        ++ (if addBm && bmFail then [MEvent.bmFailMsg] else [])
        ++ [MEvent.prog (pyPct (done + 1) total)])
  | .encBad =>
    (done + 2, 0,
      [MEvent.loading, MEvent.skipEnc,
       MEvent.prog (pyPct (done + 1) total),
       MEvent.prog (pyPct (done + 2) total)])
  | .openErr =>
    (done + 1, 0,
      [MEvent.loading, MEvent.skipErr, MEvent.prog (pyPct (done + 1) total)])

/-- The `for item in self.items` loop: total output pages and emitted events. -/
def mergeLoop (addBm : Bool) (total done : Nat) : List MItem → Nat × List MEvent
  | [] => (0, [])
  | it :: rest =>
    let s := mergeStep addBm total done it
    let r := mergeLoop addBm total s.1 rest
    (s.2.1 + r.1, s.2.2 ++ r.2)

/-- Pages accumulated in the output writer by a merge run. -/
def mergePages (addBm : Bool) (items : List MItem) : Nat :=
  (mergeLoop addBm items.length 0 items).1

/-- Events emitted by a merge run, in order. -/
def mergeEvents (addBm : Bool) (items : List MItem) : List MEvent :=
  (mergeLoop addBm items.length 0 items).2

/-- The values carried by the progress events of a merge run, in order. -/
def mergeProgress (addBm : Bool) (items : List MItem) : List Nat :=
  (mergeEvents addBm items).filterMap fun e =>
    match e with
    | MEvent.prog v => some v
    | _ => none

/-- `MergeWorker.run`: an empty plan fails immediately (`none`); otherwise
the loop runs to completion and the output is written. -/
def mergeRun (addBm : Bool) (items : List MItem) : Option (Nat × List MEvent) :=
  if items.isEmpty then none
  else some (mergePages addBm items, mergeEvents addBm items)

/-- Pages stored in one item (0 for skipped items). -/
def itemPages : MItem → Nat
  | .ok n _ => n
  | _ => 0

/-- Sum of the stored pages of the readable items of a plan. -/
def planPages (items : List MItem) : Nat := (items.map itemPages).sum

/-!  ## Split worker (`SplitWorker`)  -/

/-- The three split modes (`MODE_EACH`, `MODE_CHUNK`, `MODE_RANGES`). -/
inductive SplitMode where
  | each
  | chunk
  | ranges
deriving DecidableEq

/-- State of a constructed `SplitWorker`, together with the environment it
runs against (`src_exists`: the source path exists; `encrypted_bad`: the
source is encrypted and `decrypt("")` raises; `total`: its page count). -/
structure SplitWorker where
  src_exists : Bool
  encrypted_bad : Bool
  total : Nat
  mode : SplitMode
  stem : List Char
  chunk_size : Nat
  ranges_text : List Char
  pad : Nat
  start_index : Int
deriving DecidableEq

/-- `SplitWorker.__init__`: `filename_prefix or "split"`,
`max(1, int(chunk_size))`, `max(1, int(pad))`, `int(start_index)`. -/
def mkSplitWorker (src_exists encrypted_bad : Bool) (total : Nat) (mode : SplitMode)
    (stem0 : List Char) (chunk0 : Int) (ranges_text : List Char)
    (pad0 : Int) (start0 : Int) : SplitWorker :=
  { src_exists := src_exists
    encrypted_bad := encrypted_bad
    total := total
    mode := mode
    stem := if stem0.isEmpty then "split".toList else stem0
    chunk_size := (max 1 chunk0).toNat
    ranges_text := ranges_text
    pad := (max 1 pad0).toNat
    start_index := start0 }

/-- Decimal digits of a natural number (`str(n)` for `n >= 0`). -/
def natDigs (n : Nat) : List Char := Nat.toDigits 10 n

/-- Python `str(i)` for an int. -/
def intStr (i : Int) : List Char :=
  if i < 0 then '-' :: natDigs i.natAbs else natDigs i.toNat

/-- Python `s.zfill(w)`: left-pad with zeros to width `w`, keeping a
leading sign in place. -/
def zfill (s : List Char) (w : Nat) : List Char :=
  match s with
  | '-' :: rest => '-' :: (List.replicate (w - 1 - rest.length) '0' ++ rest)
  | '+' :: rest => '+' :: (List.replicate (w - 1 - rest.length) '0' ++ rest)
  | _ => List.replicate (w - s.length) '0' ++ s

/-- `f"{self.filename_prefix}_{str(idx).zfill(self.pad)}.pdf"`. -/
def fileName (stem : List Char) (pad : Nat) (idx : Int) : List Char :=
  stem ++ '_' :: (zfill (intStr idx) pad ++ ".pdf".toList)

/-- The sequence of `write_range` calls: each produced file is named with
the current index, which then increments by one. -/
def writeFiles (stem : List Char) (pad : Nat) : Int → List (Int × Int) → List (List Char × (Int × Int))
  | _, [] => []
  | idx, sp :: rest => (fileName stem pad idx, sp) :: writeFiles stem pad (idx + 1) rest

/-- 1-based page spans written in `MODE_EACH`: `(p, p)` for `p = 1..total`. -/
def eachSpans (total : Nat) : List (Int × Int) :=
  (List.range total).map (fun p : Nat => ((p : Int) + 1, (p : Int) + 1))

/-- 1-based page spans written in `MODE_CHUNK`:
`chunks = (total + chunk_size - 1) // chunk_size`,
span `c` is `(c*k + 1, min(total, (c+1)*k))`. -/
def chunkSpans (total k : Nat) : List (Int × Int) :=
  (List.range ((total + k - 1) / k)).map
    (fun c : Nat => ((c : Int) * k + 1, min (total : Int) (((c : Int) + 1) * k)))

/-- Terminal outcome of a split run. -/
inductive SplitOutcome where
  | okDone
  | errMissing
  | errEncrypted
  | errRanges
deriving DecidableEq

/-- `SplitWorker.run`: missing source and failed decryption abort before
any output; `MODE_RANGES` with zero parsed intervals aborts before any
output; otherwise all files for the mode's spans are written in order. -/
def splitRun (w : SplitWorker) : SplitOutcome × List (List Char × (Int × Int)) :=
  if ¬ w.src_exists then (SplitOutcome.errMissing, [])
  else if w.encrypted_bad then (SplitOutcome.errEncrypted, [])
  else
    match w.mode with
    | SplitMode.each =>
      (SplitOutcome.okDone, writeFiles w.stem w.pad w.start_index (eachSpans w.total))
    | SplitMode.chunk =>
      (SplitOutcome.okDone, writeFiles w.stem w.pad w.start_index (chunkSpans w.total w.chunk_size))
    | SplitMode.ranges =>
      let rs := parse_ranges w.ranges_text (w.total : Int)
      if rs.isEmpty then (SplitOutcome.errRanges, [])
      else (SplitOutcome.okDone, writeFiles w.stem w.pad w.start_index rs)

/-!  ## Preview scale (`_render_preview` / `_set_zoom`)  -/

/-- The three zoom policies (`"fitw"`, `"fitp"`, `"free"`). -/
inductive ZoomMode where
  | fitw
  | fitp
  | free
deriving DecidableEq

/-- Scale computed by `_render_preview`:
`vw, vh = max(1, viewport.width()-6), max(1, viewport.height()-6)`,
then `vw/pw`, `min(vw/pw, vh/ph)` or the stored free multiplier. -/
def renderScale (mode : ZoomMode) (vpW vpH : Int) (pw ph stored : ℚ) : ℚ :=
  let vw : Int := max 1 (vpW - 6)
  let vh : Int := max 1 (vpH - 6)
  match mode with
  | ZoomMode.fitw => (vw : ℚ) / pw
  | ZoomMode.fitp => min ((vw : ℚ) / pw) ((vh : ℚ) / ph)
  | ZoomMode.free => stored

/-!  ## Concrete workers used in witnesses  -/

/-- Chunk split of a 10-page source with `chunk_size = 4`. -/
def wChunkDemo : SplitWorker :=
  mkSplitWorker true false 10 SplitMode.chunk ("part".toList) 4 [] 3 1

/-- Each-page split of a 5-page source. -/
def wEachDemo : SplitWorker :=
  mkSplitWorker true false 5 SplitMode.each [] 1 [] 3 1

/-- Split whose source path does not exist. -/
def wMissingDemo : SplitWorker :=
  mkSplitWorker false false 3 SplitMode.each [] 1 [] 3 1

/-- Split whose source is encrypted and the empty-password decrypt fails. -/
def wEncDemo : SplitWorker :=
  mkSplitWorker true true 3 SplitMode.each [] 1 [] 3 1

/-- Custom-range split whose ranges text parses to zero intervals. -/
def wBadRangeDemo : SplitWorker :=
  mkSplitWorker true false 10 SplitMode.ranges [] 1 ("abc".toList) 3 1

/-- Each-page split used to check output naming (`start_index = 5`). -/
def wNameDemo : SplitWorker :=
  mkSplitWorker true false 3 SplitMode.each ("part".toList) 1 [] 3 5

/-!  ## Helper lemmas  -/

theorem clampPage_lb (total x : Int) : 1 ≤ clampPage total x := le_max_left 1 _

theorem clampPage_ub (total x : Int) (ht : 1 ≤ total) : clampPage total x ≤ total :=
  max_le ht (min_le_left _ _)

theorem swapPair_bounds {total s e x y : Int} (hs1 : 1 ≤ s) (hs2 : s ≤ total)
    (he1 : 1 ≤ e) (he2 : e ≤ total) (h : swapPair s e = some (x, y)) :
    1 ≤ x ∧ x ≤ y ∧ y ≤ total := by
  unfold swapPair at h
  split at h <;> simp only [Option.some.injEq, Prod.mk.injEq] at h <;> omega

theorem tokenOfDash_bounds {total : Int} (ht : 1 ≤ total) {a b : List Char} {x y : Int}
    (h : tokenOfDash total a b = some (x, y)) : 1 ≤ x ∧ x ≤ y ∧ y ≤ total := by
  unfold tokenOfDash at h
  cases ha : pyInt a <;> rw [ha] at h
  · exact absurd h (by simp)
  · cases hb : pyInt b <;> rw [hb] at h
    · exact swapPair_bounds (clampPage_lb _ _) (clampPage_ub _ _ ht)
        (clampPage_lb _ _) (clampPage_ub _ _ ht) h
    · exact swapPair_bounds (clampPage_lb _ _) (clampPage_ub _ _ ht)
        (clampPage_lb _ _) (clampPage_ub _ _ ht) h

theorem parseToken_bounds {total : Int} (ht : 1 ≤ total) {raw : List Char} {x y : Int}
    (h : parseToken total raw = some (x, y)) : 1 ≤ x ∧ x ≤ y ∧ y ≤ total := by
  unfold parseToken at h
  dsimp only at h
  split at h
  · exact absurd h (by simp)
  · split at h
    · exact tokenOfDash_bounds ht h
    · cases hp : pyInt (pyStrip raw) <;> rw [hp] at h
      · exact absurd h (by simp)
      · simp only [Option.some.injEq, Prod.mk.injEq] at h
        rename_i ip
        have h1 := clampPage_lb total ip
        have h2 := clampPage_ub total ip ht
        omega

theorem parseParts_bounds {total : Int} (ht : 1 ≤ total) :
    ∀ (l : List (List Char)) {x y : Int},
      (x, y) ∈ parseParts total l → 1 ≤ x ∧ x ≤ y ∧ y ≤ total := by
  intro l
  induction l with
  | nil => intro x y h; simp [parseParts] at h
  | cons p ps ih =>
    intro x y h
    unfold parseParts at h
    cases hp : parseToken total p <;> rw [hp] at h
    · exact ih h
    · rcases List.mem_cons.mp h with h1 | h2
      · rename_i r
        have : parseToken total p = some (x, y) := by rw [hp, ← h1]
        exact parseToken_bounds ht this
      · exact ih h2

theorem parseParts_eq_filterMap (total : Int) (l : List (List Char)) :
    parseParts total l = l.filterMap (parseToken total) := by
  induction l with
  | nil => rfl
  | cons p ps ih =>
    unfold parseParts
    rw [List.filterMap_cons]
    cases parseToken total p <;> simp [ih]

theorem parse_ranges_eq_filterMap (text : List Char) (total : Int) :
    parse_ranges text total = (splitComma (pyStrip text)).filterMap (parseToken total) := by
  unfold parse_ranges
  by_cases h : (pyStrip text).isEmpty
  · rw [if_pos h]
    have he : pyStrip text = [] := by simpa using h
    rw [he]
    rfl
  · rw [if_neg h, parseParts_eq_filterMap]

theorem mergeStep_pages (addBm : Bool) (total done : Nat) (it : MItem) :
    (mergeStep addBm total done it).2.1 = itemPages it := by
  cases it <;> rfl

theorem mergeLoop_pages (addBm : Bool) (total : Nat) :
    ∀ (items : List MItem) (done : Nat),
      (mergeLoop addBm total done items).1 = planPages items := by
  intro items
  induction items with
  | nil => intro done; rfl
  | cons it rest ih =>
    intro done
    show (mergeStep addBm total done it).2.1
        + (mergeLoop addBm total (mergeStep addBm total done it).1 rest).1
      = planPages (it :: rest)
    rw [mergeStep_pages, ih]
    simp [planPages]

theorem mergeLoop_encBad_mem (addBm : Bool) (total : Nat) :
    ∀ (pre : List MItem) (done : Nat) (post : List MItem),
      MEvent.skipEnc ∈ (mergeLoop addBm total done (pre ++ MItem.encBad :: post)).2 := by
  intro pre
  induction pre with
  | nil =>
    intro done post
    show MEvent.skipEnc ∈ (mergeStep addBm total done MItem.encBad).2.2 ++ _
    apply List.mem_append_left
    simp [mergeStep]
  | cons it rest ih =>
    intro done post
    show MEvent.skipEnc ∈ (mergeStep addBm total done it).2.2 ++ _
    exact List.mem_append_right _ (ih _ _)

theorem planPages_append_encBad (pre post : List MItem) :
    planPages (pre ++ MItem.encBad :: post) = planPages pre + planPages post := by
  simp [planPages, itemPages]

theorem writeFiles_getElem (stem : List Char) (pad : Nat) :
    ∀ (spans : List (Int × Int)) (idx : Int) (i : Nat),
      (writeFiles stem pad idx spans)[i]? =
        (spans[i]?).map (fun sp => (fileName stem pad (idx + i), sp)) := by
  intro spans
  induction spans with
  | nil => intro idx i; simp [writeFiles]
  | cons sp rest ih =>
    intro idx i
    cases i with
    | zero => simp [writeFiles]
    | succ n =>
      have hstep : writeFiles stem pad idx (sp :: rest)
          = (fileName stem pad idx, sp) :: writeFiles stem pad (idx + 1) rest := rfl
      rw [hstep, List.getElem?_cons_succ, ih, List.getElem?_cons_succ]
      have hcast : idx + 1 + (n : Int) = idx + ((n : Nat) + 1 : Nat) := by push_cast; ring
      rw [hcast]

theorem writeFiles_length (stem : List Char) (pad : Nat) :
    ∀ (spans : List (Int × Int)) (idx : Int),
      (writeFiles stem pad idx spans).length = spans.length := by
  intro spans
  induction spans with
  | nil => intro idx; rfl
  | cons sp rest ih => intro idx; simp [writeFiles, ih]

theorem writeFiles_snd (stem : List Char) (pad : Nat) :
    ∀ (spans : List (Int × Int)) (idx : Int),
      (writeFiles stem pad idx spans).map Prod.snd = spans := by
  intro spans
  induction spans with
  | nil => intro idx; rfl
  | cons sp rest ih => intro idx; simp [writeFiles, ih]

theorem ceil_chunks_bounds (total k : Nat) (hk : 1 ≤ k) (ht : 1 ≤ total) :
    total ≤ ((total + k - 1) / k) * k ∧ (((total + k - 1) / k) - 1) * k < total := by
  have hdm := Nat.div_add_mod (total + k - 1) k
  have hmod : (total + k - 1) % k < k := Nat.mod_lt _ (by omega)
  have hcomm : ((total + k - 1) / k) * k = k * ((total + k - 1) / k) := Nat.mul_comm _ _
  rw [Nat.sub_mul, one_mul, hcomm]
  omega

/-!  ## Claims  -/

/-- C1: the spec says merge progress is `processed_count/total_count` after
each item, monotone, reaching 100 exactly once at the end.  The code
violates this: the encrypted-skip branch increments `done` and emits
progress inside its `except` handler and then `continue` still runs the
loop's `finally` block, which increments and emits again.  Evaluating the
merge run on a 3-item plan whose second item is encrypted-unreadable
yields the progress sequence `[33, 66, 100, 133]`: 100 is emitted mid-run
and the final emitted value is 133. -/
theorem merge_encrypted_progress_overflow :
    mergeProgress false [MItem.ok 1 false, MItem.encBad, MItem.ok 1 false]
      = [33, 66, 100, 133] := by decide

/-- C2: the range parser satisfies the spec's reference examples:
`parse("1-3,5,7-10", 10) = [(1,3),(5,5),(7,10)]`, `parse("5-2", 10) = [(2,5)]`,
`parse("0,99", 10) = [(1,1),(10,10)]`, `parse("", N) = []` for every `N`,
and `parse("abc", 10) = []`. -/
theorem parse_ranges_reference_examples :
    parse_ranges ("1-3,5,7-10".toList) 10 = [(1, 3), (5, 5), (7, 10)] ∧
    parse_ranges ("5-2".toList) 10 = [(2, 5)] ∧
    parse_ranges ("0,99".toList) 10 = [(1, 1), (10, 10)] ∧
    (∀ N : Int, parse_ranges ("".toList) N = []) ∧
    parse_ranges ("abc".toList) 10 = [] :=
  ⟨by decide, by decide, by decide, fun N => rfl, by decide⟩

/-- C3: in FixedChunk mode with stored chunk size `k ≥ 1` over `total ≥ 1`
pages, the split writes exactly `ceil(total/k)` files (the count `q`
satisfies `(q-1)*k < total ≤ q*k`) with spans `(c*k+1, min(total,(c+1)*k))`;
in EachPage mode it writes exactly `total` files with span `(p, p)`. -/
theorem split_chunk_each_spans (w : SplitWorker)
    (hsrc : w.src_exists = true) (henc : w.encrypted_bad = false)
    (hk : 1 ≤ w.chunk_size) (ht : 1 ≤ w.total) :
    (w.mode = SplitMode.chunk →
      (splitRun w).2.length = (w.total + w.chunk_size - 1) / w.chunk_size ∧
      w.total ≤ ((w.total + w.chunk_size - 1) / w.chunk_size) * w.chunk_size ∧
      (((w.total + w.chunk_size - 1) / w.chunk_size) - 1) * w.chunk_size < w.total ∧
      (∀ c : Nat, c < (splitRun w).2.length →
        ((splitRun w).2.map Prod.snd)[c]? =
          some ((c : Int) * w.chunk_size + 1,
                min (w.total : Int) (((c : Int) + 1) * w.chunk_size)))) ∧
    (w.mode = SplitMode.each →
      (splitRun w).2.length = w.total ∧
      (∀ p : Nat, p < (splitRun w).2.length →
        ((splitRun w).2.map Prod.snd)[p]? = some ((p : Int) + 1, (p : Int) + 1))) := by
  constructor
  · intro hmode
    have hrun : (splitRun w).2
        = writeFiles w.stem w.pad w.start_index (chunkSpans w.total w.chunk_size) := by
      unfold splitRun
      rw [hsrc, henc, hmode]
      simp
    refine ⟨?_, (ceil_chunks_bounds w.total w.chunk_size hk ht).1,
            (ceil_chunks_bounds w.total w.chunk_size hk ht).2, ?_⟩
    · rw [hrun, writeFiles_length, chunkSpans, List.length_map, List.length_range]
    · intro c hc
      rw [hrun, writeFiles_snd]
      rw [hrun, writeFiles_length, chunkSpans, List.length_map, List.length_range] at hc
      rw [chunkSpans, List.getElem?_map, List.getElem?_range hc]
      rfl
  · intro hmode
    have hrun : (splitRun w).2
        = writeFiles w.stem w.pad w.start_index (eachSpans w.total) := by
      unfold splitRun
      rw [hsrc, henc, hmode]
      simp
    constructor
    · rw [hrun, writeFiles_length, eachSpans, List.length_map, List.length_range]
    · intro p hp
      rw [hrun, writeFiles_snd]
      rw [hrun, writeFiles_length, eachSpans, List.length_map, List.length_range] at hp
      rw [eachSpans, List.getElem?_map, List.getElem?_range hp]
      rfl

/-- Witness for C3: chunk split of 10 pages with `chunk_size = 4` writes
`(10+4-1)/4 = 3` files; each-page split of 5 pages writes 5 files. -/
theorem split_chunk_each_spans_witness :
    (splitRun wChunkDemo).2.length = (10 + 4 - 1) / 4 ∧
    (splitRun wEachDemo).2.length = 5 := by
  constructor
  · exact ((split_chunk_each_spans wChunkDemo rfl rfl (by decide) (by decide)).1 rfl).1
  · exact ((split_chunk_each_spans wEachDemo rfl rfl (by decide) (by decide)).2 rfl).1

/-- C4: a split run over a missing source, an encrypted source whose
empty-password decrypt fails, or (with `total > 0`) a custom-ranges text
parsing to zero intervals terminates with the corresponding failure event
and writes zero output files. -/
theorem split_fatal_failures (w : SplitWorker) :
    (w.src_exists = false → splitRun w = (SplitOutcome.errMissing, [])) ∧
    (w.src_exists = true → w.encrypted_bad = true →
      splitRun w = (SplitOutcome.errEncrypted, [])) ∧
    (w.src_exists = true → w.encrypted_bad = false → w.mode = SplitMode.ranges →
      0 < w.total → parse_ranges w.ranges_text (w.total : Int) = [] →
      splitRun w = (SplitOutcome.errRanges, [])) := by
  refine ⟨fun h1 => ?_, fun h1 h2 => ?_, fun h1 h2 h3 _ h5 => ?_⟩
  · unfold splitRun
    rw [h1]
    simp
  · unfold splitRun
    rw [h1, h2]
    simp
  · unfold splitRun
    rw [h1, h2, h3]
    simp [h5]

/-- Witness for C4: the three failure cases at concrete workers. -/
theorem split_fatal_failures_witness :
    splitRun wMissingDemo = (SplitOutcome.errMissing, []) ∧
    splitRun wEncDemo = (SplitOutcome.errEncrypted, []) ∧
    splitRun wBadRangeDemo = (SplitOutcome.errRanges, []) :=
  ⟨(split_fatal_failures wMissingDemo).1 rfl,
   (split_fatal_failures wEncDemo).2.1 rfl rfl,
   (split_fatal_failures wBadRangeDemo).2.2 rfl rfl rfl (by decide) (by decide)⟩

/-- C5: for every merge plan containing an encrypted-unreadable item, the
run emits a skip message for it and continues: the output page count is
the sum of the stored pages of the other items, and in particular a plan
of 3 single-page documents with one unreadable item yields 2 pages. -/
theorem merge_encrypted_skip_continues :
    (∀ (addBm : Bool) (pre post : List MItem),
      MEvent.skipEnc ∈ mergeEvents addBm (pre ++ MItem.encBad :: post) ∧
      mergePages addBm (pre ++ MItem.encBad :: post) = planPages pre + planPages post) ∧
    mergePages false [MItem.ok 1 false, MItem.encBad, MItem.ok 1 false] = 2 := by
  refine ⟨fun addBm pre post => ⟨?_, ?_⟩, by decide⟩
  · exact mergeLoop_encBad_mem addBm _ pre 0 post
  · rw [mergePages, mergeLoop_pages, planPages_append_encBad]

/-- C6 counterexample: the claim says FitWidth scale equals
`viewport_width / page_width`, so viewport 800 with page width 400 should
give 2.0; the code subtracts a 6-pixel margin first and computes
`794/400 = 1.985`. -/
theorem renderScale_fitw_not_raw_ratio :
    renderScale ZoomMode.fitw 800 600 400 500 1 ≠ 800 / 400 := by
  norm_num [renderScale]

/-- C6 amended: FitWidth scale is `max(1, viewport_width - 6)/page_width`
and FitPage scale is the min of the two margin-adjusted ratios; viewport
width 806 with page width 400 gives exactly 2.0. -/
theorem renderScale_fit_margin :
    (∀ (vpW vpH : Int) (pw ph stored : ℚ),
      renderScale ZoomMode.fitw vpW vpH pw ph stored
          = ((max 1 (vpW - 6) : Int) : ℚ) / pw ∧
      renderScale ZoomMode.fitp vpW vpH pw ph stored
          = min (((max 1 (vpW - 6) : Int) : ℚ) / pw)
                (((max 1 (vpH - 6) : Int) : ℚ) / ph)) ∧
    renderScale ZoomMode.fitw 806 600 400 500 1 = 2 := by
  refine ⟨fun vpW vpH pw ph stored => ⟨rfl, rfl⟩, ?_⟩
  norm_num [renderScale]

/-- C7 counterexample: the claim quantifies over every `total_pages`, but
at `total_pages = 0` the parser still clamps up to 1 and returns the
interval `(1, 1)`, whose endpoints exceed `total_pages`. -/
theorem parse_ranges_exceeds_zero_total :
    parse_ranges ("1".toList) 0 = [(1, 1)] ∧ ¬ ((1 : Int) ≤ 0) := by decide

/-- C7 amended: for `total_pages ≥ 1`, every returned interval `(s, e)`
satisfies `1 ≤ s ≤ e ≤ total_pages`; and for every input the output is
exactly the in-order filterMap of the per-token parser over the
comma-split tokens — surviving tokens keep their input order and
overlapping intervals are never merged. -/
theorem parse_ranges_bounds_and_order (text : List Char) (total : Int) :
    (1 ≤ total →
      ∀ se ∈ parse_ranges text total, 1 ≤ se.1 ∧ se.1 ≤ se.2 ∧ se.2 ≤ total) ∧
    parse_ranges text total = (splitComma (pyStrip text)).filterMap (parseToken total) := by
  refine ⟨fun ht se hse => ?_, parse_ranges_eq_filterMap text total⟩
  obtain ⟨s, e⟩ := se
  rw [parse_ranges_eq_filterMap] at hse
  rcases List.mem_filterMap.mp hse with ⟨tok, _, htok⟩
  exact parseToken_bounds ht htok

/-- Witness for C7: the bounds at `text = "1-3,5"`, `total = 10`. -/
theorem parse_ranges_bounds_and_order_witness :
    (1 : Int) ≤ 10 ∧
    ∀ se ∈ parse_ranges ("1-3,5".toList) 10, 1 ≤ se.1 ∧ se.1 ≤ se.2 ∧ se.2 ≤ 10 :=
  ⟨by decide, (parse_ranges_bounds_and_order ("1-3,5".toList) 10).1 (by decide)⟩

/-- C8: for a stored rotation normalized to `[0, 360)`, applying `+90`
four times restores the original value, and `-90` then `+90` restores the
original value. -/
theorem rotate_mod360_identities (r : Int) (h0 : 0 ≤ r) (h1 : r < 360) :
    rotatePage (rotatePage (rotatePage (rotatePage r 90) 90) 90) 90 = r ∧
    rotatePage (rotatePage r (-90)) 90 = r := by
  unfold rotatePage
  omega

/-- Witness for C8: the rotation identities at `r = 90`. -/
theorem rotate_mod360_identities_witness :
    (0 : Int) ≤ 90 ∧ (90 : Int) < 360 ∧
    rotatePage (rotatePage (rotatePage (rotatePage 90 90) 90) 90) 90 = 90 ∧
    rotatePage (rotatePage 90 (-90)) 90 = 90 :=
  ⟨by decide, by decide, rotate_mod360_identities 90 (by decide) (by decide)⟩

/-- C9: every output file of a split run is named
`{prefix}_{index zero-padded to pad digits}.pdf` where the index of the
`i`-th produced file is `start_index + i`, in every mode; and a blank
prefix defaults to `"split"`. -/
theorem split_output_names :
    (∀ (w : SplitWorker) (i : Nat) (nm : List Char) (sp : Int × Int),
      (splitRun w).2[i]? = some (nm, sp) →
      nm = fileName w.stem w.pad (w.start_index + i)) ∧
    (∀ (se eb : Bool) (total : Nat) (mode : SplitMode) (chunk0 pad0 start0 : Int)
        (rt : List Char),
      (mkSplitWorker se eb total mode [] chunk0 rt pad0 start0).stem = "split".toList) := by
  constructor
  · intro w i nm sp h
    have hgen : ∀ spans : List (Int × Int),
        (writeFiles w.stem w.pad w.start_index spans)[i]? = some (nm, sp) →
        nm = fileName w.stem w.pad (w.start_index + i) := by
      intro spans hw
      rw [writeFiles_getElem] at hw
      cases hsp : spans[i]? with
      | none =>
        rw [hsp] at hw
        exact absurd hw (by simp)
      | some v =>
        rw [hsp] at hw
        have hw2 : fileName w.stem w.pad (w.start_index + i) = nm ∧ v = sp := by
          simpa using hw
        exact hw2.1.symm
    by_cases h1 : w.src_exists = true
    case neg =>
      have h1f : w.src_exists = false := by simpa using h1
      have hz : splitRun w = (SplitOutcome.errMissing, []) := by
        unfold splitRun
        rw [h1f]
        simp
      rw [hz] at h
      exact absurd h (by simp)
    by_cases h2 : w.encrypted_bad = true
    case pos =>
      have hz : splitRun w = (SplitOutcome.errEncrypted, []) := by
        unfold splitRun
        rw [h1, h2]
        simp
      rw [hz] at h
      exact absurd h (by simp)
    have h2f : w.encrypted_bad = false := by simpa using h2
    cases hm : w.mode
    · have hrun : (splitRun w).2
          = writeFiles w.stem w.pad w.start_index (eachSpans w.total) := by
        unfold splitRun
        rw [h1, h2f, hm]
        simp
      rw [hrun] at h
      exact hgen _ h
    · have hrun : (splitRun w).2
          = writeFiles w.stem w.pad w.start_index (chunkSpans w.total w.chunk_size) := by
        unfold splitRun
        rw [h1, h2f, hm]
        simp
      rw [hrun] at h
      exact hgen _ h
    · by_cases h3 : (parse_ranges w.ranges_text (w.total : Int)).isEmpty
      · have hz : splitRun w = (SplitOutcome.errRanges, []) := by
          unfold splitRun
          rw [h1, h2f, hm]
          simp [h3]
        rw [hz] at h
        exact absurd h (by simp)
      · have hrun : (splitRun w).2
            = writeFiles w.stem w.pad w.start_index
                (parse_ranges w.ranges_text (w.total : Int)) := by
          unfold splitRun
          rw [h1, h2f, hm]
          simp [h3]
        rw [hrun] at h
        exact hgen _ h
  · intro se eb total mode chunk0 pad0 start0 rt
    rfl

/-- Witness for C9: the second file of an each-page split with
`start_index = 5` and prefix `part` is named `part_006.pdf`. -/
theorem split_output_names_witness :
    (splitRun wNameDemo).2[1]? = some ("part_006.pdf".toList, ((2 : Int), (2 : Int))) ∧
    "part_006.pdf".toList = fileName wNameDemo.stem wNameDemo.pad (wNameDemo.start_index + 1) :=
  ⟨by decide,
   split_output_names.1 wNameDemo 1 ("part_006.pdf".toList) ((2 : Int), (2 : Int)) (by decide)⟩

/-- C10: for every caller-supplied `chunk_size` and `pad`, including zero
and negative values, the constructed worker stores `max(1, chunk_size)`
and `max(1, pad)`, so both are at least 1 (the FixedChunk divisor is never
zero and the padding width is at least 1). -/
theorem splitWorker_clamps_params :
    ∀ (se eb : Bool) (total : Nat) (mode : SplitMode) (stem0 : List Char)
      (chunk0 : Int) (rt : List Char) (pad0 start0 : Int),
      ((mkSplitWorker se eb total mode stem0 chunk0 rt pad0 start0).chunk_size : Int)
          = max 1 chunk0 ∧
      ((mkSplitWorker se eb total mode stem0 chunk0 rt pad0 start0).pad : Int)
          = max 1 pad0 ∧
      0 < (mkSplitWorker se eb total mode stem0 chunk0 rt pad0 start0).chunk_size ∧
      0 < (mkSplitWorker se eb total mode stem0 chunk0 rt pad0 start0).pad := by
  intro se eb total mode stem0 chunk0 rt pad0 start0
  simp only [mkSplitWorker]
  refine ⟨?_, ?_, ?_, ?_⟩ <;> omega

end PDFManager
